import Mathlib

/-!
Verification of the template-create-project CLI (src/cli.js) against its
natural-language specification.

Strings are modelled as `List Char`.  The JavaScript string primitives used
by the source (`trim`, `split(/\s+/)`, `toLowerCase`, `join('-')`,
`replaceAll`, `replace("\n","")`) are embedded as executable Lean functions
below.  The interactive wizard and the project-creation pipeline are
embedded as pure functions from an environment (the answers of the operator
and of the external collaborators: the catalog, the shell, the filesystem)
to a trace of observable events plus a process outcome.

Recursive scanners are written with an explicit fuel argument (always
instantiated with the length of the scanned list, which is sufficient) so
that all definitions compute by kernel reduction.

Modelling notes kept deliberately visible:
* `replaceAll` follows the full ECMA-262 semantics of
  `String.prototype.replaceAll` with a string search value: each match is
  substituted through GetSubstitution, so the dollar sequences of the
  replacement text (dollar-dollar, dollar-ampersand, dollar-backquote,
  dollar-quote) are expanded against the match position; string patterns
  have no capture groups, so no other sequence is special.
* `Char.toLower` (basic-latin lowercasing) stands in for the JavaScript
  `toLowerCase`; the two agree on all inputs the tool manipulates.
-/

/-- Whitespace test matching the JavaScript `\s` character class
(ECMA-262 WhiteSpace and LineTerminator code points). -/
def jsIsSpace (c : Char) : Bool :=
  c.toNat ∈ [9, 10, 11, 12, 13, 32, 160, 0x1680,
    0x2000, 0x2001, 0x2002, 0x2003, 0x2004, 0x2005, 0x2006, 0x2007,
    0x2008, 0x2009, 0x200a, 0x2028, 0x2029, 0x202f, 0x205f, 0x3000, 0xfeff]

/-- JavaScript `String.prototype.trim`: remove leading and trailing
whitespace. -/
def jsTrim (s : List Char) : List Char :=
  ((s.dropWhile jsIsSpace).reverse.dropWhile jsIsSpace).reverse

/-- Fuelled scanner behind `jsSplitWs`.  `cur` is the reversed accumulator
of the token being scanned.  The fuel is only a termination device: one
unit is spent per step and every step consumes at least one character, so
fuel equal to the length of the input never runs out. -/
def jsSplitWsGo (cur : List Char) : Nat → List Char → List (List Char)
  | _, [] => [cur.reverse]
  | 0, l => [cur.reverse ++ l]
  | fuel + 1, c :: rest =>
    if jsIsSpace c then
      cur.reverse :: jsSplitWsGo [] fuel (rest.dropWhile jsIsSpace)
    else
      jsSplitWsGo (c :: cur) fuel rest

/-- JavaScript `s.split(/\s+/)`: split on maximal runs of whitespace.  A
leading (resp. trailing) run contributes an empty first (resp. last)
token, and the empty string yields `[""]`, exactly as in JavaScript. -/
def jsSplitWs (s : List Char) : List (List Char) :=
  jsSplitWsGo [] s.length s

/-- JavaScript `Array.prototype.join` with separator `sep`. -/
def jsJoin (sep : List Char) : List (List Char) → List Char
  | [] => []
  | [t] => t
  | t :: ts => t ++ sep ++ jsJoin sep ts

/-- GetSubstitution of ECMA-262 for a string search value: in the
replacement template, dollar-dollar yields a literal dollar,
dollar-ampersand the matched text, dollar-backquote the part of the
original subject before the match, dollar-quote the part after it; any
other dollar is copied literally (a string pattern has no capture groups,
so the digit and angle-bracket forms are not special and fall to the
literal case). -/
def getSubstitution (matched before after : List Char) :
    List Char → List Char
  | [] => []
  | c :: rest =>
    if c = '$' then
      match rest with
      | [] => [c]
      | d :: rest2 =>
        if d = '$' then
          '$' :: getSubstitution matched before after rest2
        else if d = '&' then
          matched ++ getSubstitution matched before after rest2
        else if d = '\x60' then
          before ++ getSubstitution matched before after rest2
        else if d = '\'' then
          after ++ getSubstitution matched before after rest2
        else
          -- d is not a dollar (that case is handled above), so it cannot
          -- start a substitution sequence: both characters are literal
          c :: d :: getSubstitution matched before after rest2
    else
      c :: getSubstitution matched before after rest

/-- Fuelled scanner behind `replaceAll`: left-to-right, non-overlapping
matching of `pat`; each match inserts the GetSubstitution expansion of
`repl` against the match position in the original subject (`prefixRev`
is the reversed part of the subject already passed).  The inserted text
is never rescanned.  Fuel equal to the length of the input is sufficient
because every step consumes at least one character. -/
def replaceAllGo (pat repl : List Char) :
    Nat → List Char → List Char → List Char
  | _, _, [] => []
  | 0, _, l => l
  | fuel + 1, prefixRev, c :: rest =>
    if pat ≠ [] ∧ pat.isPrefixOf (c :: rest) then
      getSubstitution pat prefixRev.reverse (rest.drop (pat.length - 1)) repl
        ++ replaceAllGo pat repl fuel (pat.reverse ++ prefixRev)
            (rest.drop (pat.length - 1))
    else
      c :: replaceAllGo pat repl fuel (c :: prefixRev) rest

/-- JavaScript `String.prototype.replaceAll` with a string search value
(replacement text expanded through `getSubstitution` at every match). -/
def replaceAll (pat repl s : List Char) : List Char :=
  replaceAllGo pat repl s.length [] s

/-- Fuelled scanner behind `replaceAllLiteral`: like `replaceAllGo` but
the replacement text is inserted verbatim. -/
def replaceAllLiteralGo (pat repl : List Char) : Nat → List Char → List Char
  | _, [] => []
  | 0, l => l
  | fuel + 1, c :: rest =>
    if pat ≠ [] ∧ pat.isPrefixOf (c :: rest) then
      repl ++ replaceAllLiteralGo pat repl fuel (rest.drop (pat.length - 1))
    else
      c :: replaceAllLiteralGo pat repl fuel rest

/-- Replacement as worded in the specification: every literal occurrence
of the token is replaced by the resolved value verbatim. -/
def replaceAllLiteral (pat repl s : List Char) : List Char :=
  replaceAllLiteralGo pat repl s.length s

/-- JavaScript `String.prototype.replace` with the string pattern `"\n"`:
remove the first newline only (used on the shell output of the identity
lookup). -/
def jsReplaceFirstNewline : List Char → List Char
  | [] => []
  | c :: rest => if c = '\n' then rest else c :: jsReplaceFirstNewline rest

/-- Embeds `convertStringToProjectId` of src/cli.js: trim, split on runs
of whitespace, lowercase each token, join with a hyphen. -/
def convertStringToProjectId (projectName : List Char) : List Char :=
  jsJoin ['-'] ((jsSplitWs (jsTrim projectName)).map (List.map Char.toLower))

/-- Sanity computations pinning the embedding to JavaScript behaviour. -/
example : jsSplitWs "a  b".toList = ["a".toList, "b".toList] := by decide
example : jsSplitWs "".toList = [[]] := by decide
example : jsSplitWs " a".toList = [[], ['a']] := by decide
example : jsSplitWs "a ".toList = [['a'], []] := by decide
example : jsTrim "  x ".toList = ['x'] := by decide
example : replaceAll "ab".toList "c".toList "abab".toList = "cc".toList := by
  decide
example : replaceAll "aa".toList "b".toList "aaa".toList = "ba".toList := by
  decide
example : replaceAll ['b'] ['<', '$', '&', '>'] "abc".toList
    = "a<b>c".toList := by decide
example : replaceAll ['b'] ['$', '$'] "abc".toList = ['a', '$', 'c'] := by
  decide
example : replaceAll ['b'] ['$', '\x60'] "abc".toList = "aac".toList := by
  decide
example : replaceAll ['b'] ['$', '\''] "abc".toList = "acc".toList := by
  decide
example : replaceAll ['b'] ['$', 'x'] "abc".toList
    = ['a', '$', 'x', 'c'] := by decide
example : replaceAll ['b'] ['$', '$', '&'] "abc".toList
    = ['a', '$', '&', 'c'] := by decide
example : convertStringToProjectId "  My Cool App  ".toList
    = "my-cool-app".toList := by decide

/-! Data model: templates, the wizard's project-setup record, manifest
entries, exactly the fields the source reads. -/

/-- One catalog entry as built by `fetchAvailableTemplates` of src/cli.js
from a search result (`name`, `description`, `html_url`, `clone_url`). -/
structure Template where
  name : List Char
  description : List Char
  htmlUrl : List Char
  gitUrl : List Char
deriving DecidableEq

/-- The `projectSetup` record filled by `userInterface` of src/cli.js. -/
structure ProjectSetup where
  template : Template
  id : List Char
  name : List Char
  userName : List Char
  userEmail : List Char
deriving DecidableEq

/-- One entry of the `project` array of `__template.json`: a file name and
the ordered keyword list to substitute in it. -/
structure ManifestEntry where
  file : List Char
  keywords : List (List Char)
deriving DecidableEq

/-! Keyword substitution: the `filterFile` switch of src/cli.js. -/

/-- Resolved value of one keyword, read off the `switch` statement of
`filterFile` in src/cli.js.  `dateStr` stands for the value of
`new Date().toLocaleDateString("en-US")` at the time of the run; the code
appends the literal suffix `" (en-US)"` to it.  `none` means the keyword
hits no `case` and the content is left unchanged. -/
def resolveKeyword (setup : ProjectSetup) (dateStr : List Char)
    (key : List Char) : Option (List Char) :=
  if key = "webstart-project-id".toList then
    some setup.id
  else if key = "webstart-project-name".toList then
    some setup.name
  else if key = "webstart-project-author".toList then
    some (setup.userName ++ " <".toList ++ setup.userEmail ++ ">".toList)
  else if key = "webstart-project-setupdate".toList then
    some (dateStr ++ " (en-US)".toList)
  else if key = "webstart-template-url".toList then
    some setup.template.htmlUrl
  else if key = "@webstart".toList then
    some ('@' :: setup.id)
  else
    none

/-- One iteration of the keyword loop of `filterFile`. -/
def filterFileStep (setup : ProjectSetup) (dateStr : List Char)
    (content key : List Char) : List Char :=
  match resolveKeyword setup dateStr key with
  | some value => replaceAll key value content
  | none => content

/-- The pure content transformation performed by `filterFile` of
src/cli.js: fold the keyword list, in listed order, over the file
content. -/
def filterFileContent (setup : ProjectSetup) (dateStr : List Char)
    (keywords : List (List Char)) (content : List Char) : List Char :=
  keywords.foldl (filterFileStep setup dateStr) content

/-- The six keywords recognised by the `switch` of `filterFile`. -/
def knownKeywords : List (List Char) :=
  ["webstart-project-id".toList, "webstart-project-name".toList,
   "webstart-project-author".toList, "webstart-project-setupdate".toList,
   "webstart-template-url".toList, "@webstart".toList]

/-! Wizard and pipeline model.  The run of src/cli.js is embedded as a
pure function from an environment (operator answers plus the responses of
the external collaborators) to a list of observable events and a process
outcome. -/

/-- Result of one settled promise, as collected by `Promise.allSettled`. -/
inductive Settled
  | fulfilled
  | rejected
deriving DecidableEq

/-- Observable events of a run, in program order. -/
inductive Event
  | printMsg (msg : String)
  | errorReported
  | clearScreen
  | fetchCatalog
  | listTemplates (names : List (List Char))
  | promptTemplateIndex
  | promptName
  | promptSummary
  | checkDir (dir : List Char)
  | cloneRepo (url : List Char)
  | readManifest
  | readEntry (i : Nat)
  | writeEntry (i : Nat) (content : List Char)
  | removeFile (name : List Char)
deriving DecidableEq

/-- Process outcome of a run.  `crashTypeError` is an uncaught exception:
the promise returned by `main` rejects, Node terminates the process with a
nonzero status that is neither the clean exit 0 nor the validation exit
9. -/
inductive Outcome
  | exit0
  | exit9
  | crashTypeError
deriving DecidableEq

/-- Everything a run of the program consumes from the outside: the catalog
response, the operator's answers, the shell and filesystem responses.
Numeric input is modelled after `Number.parseInt`: `none` is `NaN`.
`fileRead i` is the content of the file of manifest entry `i` (`none`:
the read rejects); `writeOk i` tells whether the write-back of entry `i`
fulfils. -/
structure WizardEnv where
  templates : List Template
  templateIdxInput : Option Int
  nameInput : List Char
  gitNameRes : Option (List Char)
  gitEmailRes : Option (List Char)
  dateStr : List Char
  dirExists : Bool
  cloneOk : Bool
  manifest : Option (List ManifestEntry)
  fileRead : Nat → Option (List Char)
  writeOk : Nat → Bool
  removeManifestOk : Bool
  removeLicenseOk : Bool
  removeGitDirOk : Bool

/-- Result record of `getCurrentUserInfo` of src/cli.js. -/
structure UserInfo where
  gitName : List Char
  gitEmail : List Char
deriving DecidableEq

/-- Embeds `getCurrentUserInfo` of src/cli.js.  The two `git config` reads
are awaited in order inside one `try`; a rejection of either lands in the
bare `catch` which returns the fixed fallback record. -/
def getCurrentUserInfo (nameRes emailRes : Option (List Char)) : UserInfo :=
  match nameRes, emailRes with
  | some n, some e => ⟨jsReplaceFirstNewline n, jsReplaceFirstNewline e⟩
  | _, _ => ⟨"Unknown".toList, "".toList⟩

/-- Settled status of the `filterFile` promise of one manifest entry: the
read rejecting or the write rejecting rejects the entry's promise;
otherwise it fulfils. -/
def filterFileSettled (readRes : Option (List Char)) (writeSucceeds : Bool) :
    Settled :=
  match readRes with
  | none => Settled.rejected
  | some _ => if writeSucceeds then Settled.fulfilled else Settled.rejected

/-- Events of the `filterFile` call of entry `i`: the read attempt, then
(if the read fulfilled) the write-back of the transformed content. -/
def filterFileEvents (setup : ProjectSetup) (dateStr : List Char) (i : Nat)
    (entry : ManifestEntry) (readRes : Option (List Char)) : List Event :=
  match readRes with
  | none => [Event.readEntry i]
  | some content =>
    [Event.readEntry i,
     Event.writeEntry i (filterFileContent setup dateStr entry.keywords content)]

/-- Embeds the `Promise.allSettled` of `filterFiles` of src/cli.js: every
entry's promise is settled and all outcomes are collected. -/
def filterFilesSettled (entries : List ManifestEntry)
    (fileRead : Nat → Option (List Char)) (writeSucceeds : Nat → Bool) :
    List Settled :=
  entries.enum.map fun p => filterFileSettled (fileRead p.1) (writeSucceeds p.1)

/-- Events of the Substitute phase, in entry order. -/
def filterFilesEvents (setup : ProjectSetup) (dateStr : List Char)
    (entries : List ManifestEntry) (fileRead : Nat → Option (List Char)) :
    List Event :=
  entries.enum.flatMap fun p =>
    filterFileEvents setup dateStr p.1 p.2 (fileRead p.1)

/-- Settled status of a single cleanup deletion. -/
def settledOf (b : Bool) : Settled :=
  if b then Settled.fulfilled else Settled.rejected

/-- Embeds the `Promise.allSettled` of `removeTemplateFiles` of
src/cli.js: the three deletions are all attempted and their outcomes
collected. -/
def removeTemplateFilesSettled (manifestOk licenseOk gitDirOk : Bool) :
    List Settled :=
  [settledOf manifestOk, settledOf licenseOk, settledOf gitDirOk]

/-- Events of the Cleanup phase: all three removals are attempted
unconditionally. -/
def removeTemplateFilesEvents : List Event :=
  [Event.removeFile "__template.json".toList,
   Event.removeFile "LICENSE".toList,
   Event.removeFile ".git".toList]

/-- Embeds `createProject` of src/cli.js.  The `try` block runs the
phases in order (directory check, clone, manifest parse, substitution,
cleanup); the first throwing phase jumps to the `catch`, which prints the
error and exits with status 9.  An `exit0` outcome means the block
completed and control returns to the wizard. -/
def createProject (env : WizardEnv) (setup : ProjectSetup) :
    List Event × Outcome :=
  if env.dirExists then
    ([Event.checkDir setup.id, Event.errorReported], Outcome.exit9)
  else if !env.cloneOk then
    ([Event.checkDir setup.id, Event.printMsg "Downloading template...",
      Event.cloneRepo setup.template.gitUrl, Event.errorReported],
     Outcome.exit9)
  else
    match env.manifest with
    | none =>
      ([Event.checkDir setup.id, Event.printMsg "Downloading template...",
        Event.cloneRepo setup.template.gitUrl, Event.printMsg "Filtering...",
        Event.readManifest, Event.errorReported], Outcome.exit9)
    | some entries =>
      ([Event.checkDir setup.id, Event.printMsg "Downloading template...",
        Event.cloneRepo setup.template.gitUrl, Event.printMsg "Filtering...",
        Event.readManifest]
        ++ filterFilesEvents setup env.dateStr entries env.fileRead
        ++ [Event.printMsg "Cleanup..."]
        ++ removeTemplateFilesEvents
        ++ [Event.printMsg "\nYour project has been created. Please consult the README file how to proceed from here."],
       Outcome.exit0)

/-- Placeholder template for the (guarded, hence never exercised)
out-of-bounds list access of the model. -/
def defaultTemplate : Template := ⟨[], [], [], []⟩

/-- The `projectSetup` record as filled by `userInterface` of src/cli.js
once the index and name prompts have been validated. -/
def wizardSetup (env : WizardEnv) (idx : Int) : ProjectSetup :=
  let userInfo := getCurrentUserInfo env.gitNameRes env.gitEmailRes
  { template := env.templates.getD idx.toNat defaultTemplate
    id := convertStringToProjectId (jsTrim env.nameInput)
    name := jsTrim env.nameInput
    userName := userInfo.gitName
    userEmail := userInfo.gitEmail }

/-- Embeds `main` plus `userInterface` of src/cli.js.  With an empty
catalog, `userInterfaceLoadTemplates` prints the no-templates message and
returns `undefined`; `main` nevertheless calls `userInterface(undefined)`,
which prints the list header and then throws a `TypeError` reading
`undefined.length`, so the run crashes instead of exiting cleanly. -/
def runWizard (env : WizardEnv) : List Event × Outcome :=
  let ev0 : List Event :=
    [Event.printMsg "Fetching available project templates...",
     Event.fetchCatalog]
  if env.templates.length = 0 then
    (ev0 ++ [Event.printMsg "No project templates available",
             Event.printMsg "Available project templates: "],
     Outcome.crashTypeError)
  else
    let templates := env.templates
    let ev1 := ev0 ++ [Event.clearScreen,
      Event.printMsg "Available project templates: ",
      Event.listTemplates (templates.map Template.name),
      Event.promptTemplateIndex]
    match env.templateIdxInput with
    | none => (ev1 ++ [Event.errorReported], Outcome.exit9)
    | some idx =>
      if idx < 0 ∨ (templates.length : Int) ≤ idx then
        (ev1 ++ [Event.errorReported], Outcome.exit9)
      else
        let ev2 := ev1 ++ [Event.promptName]
        if (jsTrim env.nameInput).length = 0 then
          (ev2 ++ [Event.errorReported], Outcome.exit9)
        else
          let ev3 := ev2 ++ [Event.clearScreen, Event.promptSummary,
            Event.clearScreen]
          let res := createProject env (wizardSetup env idx)
          (ev3 ++ res.1, res.2)

/-! Specification-side definitions for the refinement claims.  These
follow the wording of the spec, to be compared with the definitions
embedded from the source above. -/

/-- Keyword table as worded in the specification (token, resolved value):
projectId, projectName, author as name-space-angle-bracketed-email, the
formatted date with the locale-tag suffix, the selected template's web
URL, and the at-prefixed projectId. -/
def specKeywordTable (setup : ProjectSetup) (dateStr : List Char) :
    List (List Char × List Char) :=
  [("webstart-project-id".toList, setup.id),
   ("webstart-project-name".toList, setup.name),
   ("webstart-project-author".toList,
     setup.userName ++ " <".toList ++ setup.userEmail ++ ">".toList),
   ("webstart-project-setupdate".toList, dateStr ++ " (en-US)".toList),
   ("webstart-template-url".toList, setup.template.htmlUrl),
   ("@webstart".toList, '@' :: setup.id)]

/-- Substitute step as worded in the specification and the claim: for
every keyword in listed order, replace every occurrence of the literal
token with the table value inserted verbatim; tokens absent from the
table are no-ops. -/
def specSubstitute (setup : ProjectSetup) (dateStr : List Char)
    (keywords : List (List Char)) (content : List Char) : List Char :=
  keywords.foldl (fun acc key =>
    match (specKeywordTable setup dateStr).lookup key with
    | some value => replaceAllLiteral key value acc
    | none => acc) content

/-- Substitute step with the specification's keyword table but the
dollar-expanding replacement of JavaScript: what the source actually
computes. -/
def specSubstituteJS (setup : ProjectSetup) (dateStr : List Char)
    (keywords : List (List Char)) (content : List Char) : List Char :=
  keywords.foldl (fun acc key =>
    match (specKeywordTable setup dateStr).lookup key with
    | some value => replaceAll key value acc
    | none => acc) content

/-- Concrete setup used by the scenario of the specification: projectId
is the string foo. -/
def scenarioSetup : ProjectSetup :=
  { template := ⟨"demo".toList, [], "https://example.org/demo".toList, []⟩
    id := "foo".toList
    name := "Foo".toList
    userName := "Jane Doe".toList
    userEmail := "jane@example.org".toList }

theorem resolveKeyword_eq_lookup (setup : ProjectSetup) (d k : List Char) :
    resolveKeyword setup d k = (specKeywordTable setup d).lookup k := by
  by_cases h1 : k = "webstart-project-id".toList
  · subst h1; rfl
  by_cases h2 : k = "webstart-project-name".toList
  · subst h2; rfl
  by_cases h3 : k = "webstart-project-author".toList
  · subst h3; rfl
  by_cases h4 : k = "webstart-project-setupdate".toList
  · subst h4; rfl
  by_cases h5 : k = "webstart-template-url".toList
  · subst h5; rfl
  by_cases h6 : k = "@webstart".toList
  · subst h6; rfl
  simp only [resolveKeyword, specKeywordTable, List.lookup,
    if_neg h1, if_neg h2, if_neg h3, if_neg h4, if_neg h5, if_neg h6,
    beq_eq_false_iff_ne.mpr h1, beq_eq_false_iff_ne.mpr h2,
    beq_eq_false_iff_ne.mpr h3, beq_eq_false_iff_ne.mpr h4,
    beq_eq_false_iff_ne.mpr h5, beq_eq_false_iff_ne.mpr h6]

theorem resolveKeyword_eq_none {k : List Char} (setup : ProjectSetup)
    (d : List Char) (h : k ∉ knownKeywords) :
    resolveKeyword setup d k = none := by
  simp only [knownKeywords, List.mem_cons, List.not_mem_nil, or_false,
    not_or] at h
  obtain ⟨h1, h2, h3, h4, h5, h6⟩ := h
  simp only [resolveKeyword, if_neg h1, if_neg h2, if_neg h3, if_neg h4,
    if_neg h5, if_neg h6]

theorem getSubstitution_of_no_dollar (matched before after : List Char) :
    ∀ repl : List Char, (∀ c ∈ repl, c ≠ '$') →
      getSubstitution matched before after repl = repl := by
  intro repl
  induction repl with
  | nil => intro _; rfl
  | cons c rest ih =>
    intro h
    have hc : c ≠ '$' := h c (List.mem_cons_self c rest)
    rw [getSubstitution.eq_def]
    simp only [if_neg hc]
    rw [ih (fun x hx => h x (List.mem_cons_of_mem c hx))]

theorem replaceAllGo_of_no_dollar (pat repl : List Char)
    (hrepl : ∀ c ∈ repl, c ≠ '$') :
    ∀ fuel prefixRev l,
      replaceAllGo pat repl fuel prefixRev l
        = replaceAllLiteralGo pat repl fuel l := by
  intro fuel
  induction fuel with
  | zero =>
    intro prefixRev l
    cases l <;> rfl
  | succ fuel ih =>
    intro prefixRev l
    cases l with
    | nil => rfl
    | cons c rest =>
      have hunf1 : replaceAllGo pat repl (fuel + 1) prefixRev (c :: rest)
          = if pat ≠ [] ∧ pat.isPrefixOf (c :: rest) then
              getSubstitution pat prefixRev.reverse
                  (rest.drop (pat.length - 1)) repl
                ++ replaceAllGo pat repl fuel (pat.reverse ++ prefixRev)
                    (rest.drop (pat.length - 1))
            else c :: replaceAllGo pat repl fuel (c :: prefixRev) rest :=
        rfl
      have hunf2 : replaceAllLiteralGo pat repl (fuel + 1) (c :: rest)
          = if pat ≠ [] ∧ pat.isPrefixOf (c :: rest) then
              repl ++ replaceAllLiteralGo pat repl fuel
                (rest.drop (pat.length - 1))
            else c :: replaceAllLiteralGo pat repl fuel rest := rfl
      rw [hunf1, hunf2]
      by_cases hm : pat ≠ [] ∧ pat.isPrefixOf (c :: rest)
      · rw [if_pos hm, if_pos hm,
          getSubstitution_of_no_dollar _ _ _ repl hrepl, ih]
      · rw [if_neg hm, if_neg hm, ih]

/-- Whenever the replacement text contains no dollar character, the
JavaScript replacement and the literal replacement agree. -/
theorem replaceAll_of_no_dollar (pat repl s : List Char)
    (h : ∀ c ∈ repl, c ≠ '$') :
    replaceAll pat repl s = replaceAllLiteral pat repl s :=
  replaceAllGo_of_no_dollar pat repl h s.length [] s

theorem filterFileContent_eq_specSubstituteJS (setup : ProjectSetup)
    (dateStr : List Char) (keywords : List (List Char))
    (content : List Char) :
    filterFileContent setup dateStr keywords content
      = specSubstituteJS setup dateStr keywords content := by
  unfold filterFileContent specSubstituteJS
  induction keywords generalizing content with
  | nil => rfl
  | cons k ks ih =>
    simp only [List.foldl_cons]
    rw [← ih]
    congr 1
    simp only [filterFileStep, resolveKeyword_eq_lookup]

/-- Setup reachable by answering the name prompt with A dollar-ampersand
B: the derived project id contains a dollar-ampersand sequence. -/
def dollarSetup : ProjectSetup :=
  { template := ⟨"demo".toList, [], "https://example.org/demo".toList, []⟩
    id := convertStringToProjectId "A$&B".toList
    name := "A$&B".toList
    userName := "Jane Doe".toList
    userEmail := "jane@example.org".toList }

/-- C1, counterexample.  The claim as stated is false of the program: for
the reachable project id a-dollar-ampersand-b, `replaceAll` expands the
dollar-ampersand of the resolved value to the matched token instead of
inserting the value literally, so the substituted file differs from the
claimed literal replacement. -/
theorem substitute_literal_claim_false :
    dollarSetup.id = "a$&b".toList
    ∧ filterFileContent dollarSetup "1/5/2024".toList
        ["webstart-project-id".toList] "# webstart-project-id".toList
      = "# awebstart-project-idb".toList
    ∧ specSubstitute dollarSetup "1/5/2024".toList
        ["webstart-project-id".toList] "# webstart-project-id".toList
      = "# a$&b".toList
    ∧ filterFileContent dollarSetup "1/5/2024".toList
        ["webstart-project-id".toList] "# webstart-project-id".toList
      ≠ specSubstitute dollarSetup "1/5/2024".toList
        ["webstart-project-id".toList] "# webstart-project-id".toList :=
  ⟨by decide, by decide, by decide, by decide⟩

/-- C1, amended.  The Substitute phase folds the entry's keyword list, in
listed order, over the content; every occurrence of a known keyword is
replaced, the inserted text being the JavaScript dollar-expansion of the
resolved table value at that occurrence — the value verbatim whenever it
contains no dollar character; keywords outside the table leave the
content unchanged; the written content of every processed manifest entry
is exactly this transformation; and the scenario of the specification
(projectId foo, date 1/5/2024, dollar-free values) produces the expected
file. -/
theorem substitute_follows_keyword_table_amended :
    (∀ setup dateStr keywords content,
        filterFileContent setup dateStr keywords content
          = specSubstituteJS setup dateStr keywords content)
    ∧ (∀ setup dateStr k v content,
        resolveKeyword setup dateStr k = some v →
        (∀ c ∈ v, c ≠ '$') →
        filterFileContent setup dateStr [k] content
          = replaceAllLiteral k v content)
    ∧ (∀ setup dateStr k content, k ∉ knownKeywords →
        filterFileContent setup dateStr [k] content = content)
    ∧ (∀ setup dateStr k ks content,
        filterFileContent setup dateStr (k :: ks) content
          = filterFileContent setup dateStr ks
              (filterFileStep setup dateStr content k))
    ∧ (∀ setup dateStr entries fileRead i entry content,
        entries[i]? = some entry → fileRead i = some content →
        Event.writeEntry i
            (filterFileContent setup dateStr entry.keywords content)
          ∈ filterFilesEvents setup dateStr entries fileRead)
    ∧ filterFileContent scenarioSetup "1/5/2024".toList
        ["webstart-project-id".toList, "webstart-project-setupdate".toList]
        "# webstart-project-id\nCreated webstart-project-setupdate".toList
      = "# foo\nCreated 1/5/2024 (en-US)".toList := by
  refine ⟨filterFileContent_eq_specSubstituteJS, ?_, ?_, ?_, ?_, by decide⟩
  · intro setup dateStr k v content hres hv
    simp only [filterFileContent, List.foldl_cons, List.foldl_nil,
      filterFileStep, hres]
    exact replaceAll_of_no_dollar k v content hv
  · intro setup dateStr k content hk
    simp only [filterFileContent, List.foldl_cons, List.foldl_nil,
      filterFileStep, resolveKeyword_eq_none setup dateStr hk]
  · intro setup dateStr k ks content
    rfl
  · intro setup dateStr entries fileRead i entry content hE hR
    unfold filterFilesEvents
    rw [List.mem_flatMap]
    refine ⟨(i, entry), ?_, ?_⟩
    · rw [List.mem_enum_iff_getElem?]
      exact hE
    · simp [filterFileEvents, hR]

theorem substitute_follows_keyword_table_amended_witness :
    (resolveKeyword scenarioSetup "1/5/2024".toList
          "webstart-project-id".toList = some "foo".toList
      ∧ filterFileContent scenarioSetup "1/5/2024".toList
          ["webstart-project-id".toList] "id: webstart-project-id".toList
        = replaceAllLiteral "webstart-project-id".toList "foo".toList
            "id: webstart-project-id".toList)
    ∧ ("not-a-keyword".toList ∉ knownKeywords
      ∧ filterFileContent scenarioSetup "1/5/2024".toList
          ["not-a-keyword".toList] "abc webstart".toList
        = "abc webstart".toList)
    ∧ Event.writeEntry 0
        (filterFileContent scenarioSetup "1/5/2024".toList
          ["webstart-project-id".toList] "id: webstart-project-id".toList)
      ∈ filterFilesEvents scenarioSetup "1/5/2024".toList
          [⟨"README.md".toList, ["webstart-project-id".toList]⟩]
          (fun _ => some "id: webstart-project-id".toList) :=
  ⟨⟨by decide,
    substitute_follows_keyword_table_amended.2.1 scenarioSetup
      "1/5/2024".toList "webstart-project-id".toList "foo".toList
      "id: webstart-project-id".toList (by decide) (by decide)⟩,
   ⟨by decide,
    substitute_follows_keyword_table_amended.2.2.1 scenarioSetup
      "1/5/2024".toList "not-a-keyword".toList "abc webstart".toList
      (by decide)⟩,
   substitute_follows_keyword_table_amended.2.2.2.2.1 scenarioSetup
     "1/5/2024".toList
     [⟨"README.md".toList, ["webstart-project-id".toList]⟩]
     (fun _ => some "id: webstart-project-id".toList) 0
     ⟨"README.md".toList, ["webstart-project-id".toList]⟩
     "id: webstart-project-id".toList (by decide) rfl⟩

/-- C7.  Author resolution never propagates a failure: whenever either
shell read fails, the result is exactly the fallback record with name
Unknown and empty email, and the wizard run is indistinguishable from a
run in which the lookup succeeded with exactly those values. -/
theorem author_resolution_fallback :
    (∀ nameRes emailRes : Option (List Char),
        nameRes = none ∨ emailRes = none →
        getCurrentUserInfo nameRes emailRes = ⟨"Unknown".toList, []⟩)
    ∧ (∀ ts ii ni er d de co ma fr w a b c,
        runWizard ⟨ts, ii, ni, none, er, d, de, co, ma, fr, w, a, b, c⟩
          = runWizard ⟨ts, ii, ni, some "Unknown".toList, some [], d, de,
              co, ma, fr, w, a, b, c⟩)
    ∧ (∀ ts ii ni nr d de co ma fr w a b c,
        runWizard ⟨ts, ii, ni, nr, none, d, de, co, ma, fr, w, a, b, c⟩
          = runWizard ⟨ts, ii, ni, some "Unknown".toList, some [], d, de,
              co, ma, fr, w, a, b, c⟩) := by
  refine ⟨?_, ?_, ?_⟩
  · rintro nameRes emailRes (rfl | rfl)
    · rfl
    · cases nameRes <;> rfl
  · intro ts ii ni er d de co ma fr w a b c
    rfl
  · intro ts ii ni nr d de co ma fr w a b c
    cases nr <;> rfl

theorem author_resolution_fallback_witness :
    ((none : Option (List Char)) = none ∨
        (some "e@x.org".toList : Option (List Char)) = none)
    ∧ getCurrentUserInfo none (some "e@x.org".toList)
        = ⟨"Unknown".toList, []⟩ :=
  ⟨Or.inl rfl,
   author_resolution_fallback.1 none (some "e@x.org".toList) (Or.inl rfl)⟩

/-- Environment of the empty-catalog scenario: the catalog fetch returns
no templates; every other answer is arbitrary but concrete. -/
def emptyCatalogEnv : WizardEnv :=
  { templates := []
    templateIdxInput := some 0
    nameInput := "My App".toList
    gitNameRes := some "Jane".toList
    gitEmailRes := some "jane@example.org".toList
    dateStr := "1/5/2024".toList
    dirExists := false
    cloneOk := true
    manifest := some []
    fileRead := fun _ => none
    writeOk := fun _ => true
    removeManifestOk := true
    removeLicenseOk := true
    removeGitDirOk := true }

/-- C4 (code bug).  On an empty catalog the program does print the
no-templates message and performs no prompt, but it does not exit with
status 0: `userInterfaceLoadTemplates` merely returns `undefined`, `main`
goes on to call `userInterface(undefined)`, and reading `.length` of
`undefined` throws a `TypeError`, so the run ends in an unhandled
rejection (nonzero exit) after printing the template-list header. -/
theorem empty_catalog_crashes_instead_of_clean_exit :
    runWizard emptyCatalogEnv
      = ([Event.printMsg "Fetching available project templates...",
          Event.fetchCatalog,
          Event.printMsg "No project templates available",
          Event.printMsg "Available project templates: "],
         Outcome.crashTypeError)
    ∧ Event.printMsg "No project templates available"
        ∈ (runWizard emptyCatalogEnv).1
    ∧ Event.promptTemplateIndex ∉ (runWizard emptyCatalogEnv).1
    ∧ Event.promptName ∉ (runWizard emptyCatalogEnv).1
    ∧ Event.promptSummary ∉ (runWizard emptyCatalogEnv).1
    ∧ (runWizard emptyCatalogEnv).2 ≠ Outcome.exit0 := by
  refine ⟨rfl, by decide, by decide, by decide, by decide, by decide⟩

/-- Closed-form process outcome of a run, by case analysis over the
environment. -/
theorem runWizard_outcome (env : WizardEnv) :
    (runWizard env).2 =
      if env.templates.length = 0 then Outcome.crashTypeError
      else
        match env.templateIdxInput with
        | none => Outcome.exit9
        | some idx =>
          if idx < 0 ∨ (env.templates.length : Int) ≤ idx then Outcome.exit9
          else if (jsTrim env.nameInput).length = 0 then Outcome.exit9
          else if env.dirExists then Outcome.exit9
          else if !env.cloneOk then Outcome.exit9
          else
            match env.manifest with
            | none => Outcome.exit9
            | some _ => Outcome.exit0 := by
  obtain ⟨ts, ii, ni, nr, er, d, de, co, ma, fr, w, a, b, c⟩ := env
  unfold runWizard createProject
  by_cases h0 : ts.length = 0
  · simp [h0]
  · simp only [if_neg h0]
    cases ii with
    | none => simp
    | some idx =>
      by_cases h1 : idx < 0 ∨ (ts.length : Int) ≤ idx
      · simp [h1]
      · simp only [if_neg h1]
        by_cases h2 : (jsTrim ni).length = 0
        · simp [h2]
        · simp only [if_neg h2]
          cases de <;> cases co <;> cases ma <;> simp

/-- With an existing target directory the run never reaches the clone
invocation. -/
theorem no_clone_when_dir_exists (env : WizardEnv)
    (h : env.dirExists = true) :
    ∀ url, Event.cloneRepo url ∉ (runWizard env).1 := by
  obtain ⟨ts, ii, ni, nr, er, d, de, co, ma, fr, w, a, b, c⟩ := env
  subst h
  intro url
  unfold runWizard createProject
  by_cases h0 : ts.length = 0
  · simp [h0]
  · simp only [if_neg h0]
    cases ii with
    | none => simp
    | some idx =>
      by_cases h1 : idx < 0 ∨ (ts.length : Int) ≤ idx
      · simp [h1]
      · simp only [if_neg h1]
        split <;> simp

/-- C5.  Every validation or operational failure exits with status 9: a
NaN or out-of-range template index, an empty trimmed project name, an
existing target directory (before any clone attempt), a clone failure,
and a manifest failure during creation; and status 0 is reached only on
normal completion (templates present, valid inputs, clone and manifest
succeed). -/
theorem exit_code_discipline :
    (∀ env, env.templates.length ≠ 0 → env.templateIdxInput = none →
        (runWizard env).2 = Outcome.exit9)
    ∧ (∀ env idx, env.templates.length ≠ 0 →
        env.templateIdxInput = some idx →
        (idx < 0 ∨ (env.templates.length : Int) ≤ idx) →
        (runWizard env).2 = Outcome.exit9)
    ∧ (∀ env idx, env.templates.length ≠ 0 →
        env.templateIdxInput = some idx →
        ¬(idx < 0 ∨ (env.templates.length : Int) ≤ idx) →
        jsTrim env.nameInput = [] →
        (runWizard env).2 = Outcome.exit9)
    ∧ (∀ env idx, env.templates.length ≠ 0 →
        env.templateIdxInput = some idx →
        ¬(idx < 0 ∨ (env.templates.length : Int) ≤ idx) →
        jsTrim env.nameInput ≠ [] → env.dirExists = true →
        (runWizard env).2 = Outcome.exit9
          ∧ ∀ url, Event.cloneRepo url ∉ (runWizard env).1)
    ∧ (∀ env idx, env.templates.length ≠ 0 →
        env.templateIdxInput = some idx →
        ¬(idx < 0 ∨ (env.templates.length : Int) ≤ idx) →
        jsTrim env.nameInput ≠ [] → env.dirExists = false →
        env.cloneOk = false →
        (runWizard env).2 = Outcome.exit9)
    ∧ (∀ env idx, env.templates.length ≠ 0 →
        env.templateIdxInput = some idx →
        ¬(idx < 0 ∨ (env.templates.length : Int) ≤ idx) →
        jsTrim env.nameInput ≠ [] → env.dirExists = false →
        env.cloneOk = true → env.manifest = none →
        (runWizard env).2 = Outcome.exit9)
    ∧ (∀ env, (runWizard env).2 = Outcome.exit0 →
        env.templates.length ≠ 0 ∧ jsTrim env.nameInput ≠ []
          ∧ env.dirExists = false ∧ env.cloneOk = true
          ∧ env.manifest ≠ none) := by
  have hlen : ∀ l : List Char, l ≠ [] → ¬l.length = 0 := by
    intro l hne hl
    exact hne (List.length_eq_zero.mp hl)
  refine ⟨?_, ?_, ?_, ?_, ?_, ?_, ?_⟩
  · intro env h0 hi
    rw [runWizard_outcome, if_neg h0, hi]
  · intro env idx h0 hi h1
    rw [runWizard_outcome, if_neg h0, hi]
    simp [h1]
  · intro env idx h0 hi h1 h2
    rw [runWizard_outcome, if_neg h0, hi]
    simp [if_neg h1, h2]
  · intro env idx h0 hi h1 h2 h3
    refine ⟨?_, no_clone_when_dir_exists env h3⟩
    rw [runWizard_outcome, if_neg h0, hi]
    simp only
    rw [if_neg h1, if_neg (hlen _ h2), if_pos h3]
  · intro env idx h0 hi h1 h2 h3 h4
    rw [runWizard_outcome, if_neg h0, hi]
    simp only
    rw [if_neg h1, if_neg (hlen _ h2), if_neg (by simp [h3]),
      if_pos (by simp [h4])]
  · intro env idx h0 hi h1 h2 h3 h4 h5
    rw [runWizard_outcome, if_neg h0, hi]
    simp only
    rw [if_neg h1, if_neg (hlen _ h2), if_neg (by simp [h3]),
      if_neg (by simp [h4]), h5]
  · intro env h
    obtain ⟨ts, ii, ni, nr, er, d, de, co, ma, fr, w, a, b, c⟩ := env
    rw [runWizard_outcome] at h
    by_cases h0 : ts.length = 0
    · simp [h0] at h
    · rw [if_neg h0] at h
      cases ii with
      | none => simp at h
      | some idx =>
        by_cases h1 : idx < 0 ∨ (ts.length : Int) ≤ idx
        · simp [h1] at h
        · simp only [] at h
          rw [if_neg h1] at h
          by_cases h2 : (jsTrim ni).length = 0
          · simp [h2] at h
          · rw [if_neg h2] at h
            cases de with
            | true => simp at h
            | false =>
              cases co with
              | false => simp at h
              | true =>
                cases ma with
                | none => simp at h
                | some entries =>
                  exact ⟨h0, fun hnil => h2 (by rw [hnil]; rfl), rfl, rfl,
                    fun hc => Option.noConfusion hc⟩

/-- Trace and outcome of `createProject` when the directory check, the
clone and the manifest parse all succeed. -/
theorem createProject_success (env : WizardEnv) (setup : ProjectSetup)
    (entries : List ManifestEntry) (h1 : env.dirExists = false)
    (h2 : env.cloneOk = true) (h3 : env.manifest = some entries) :
    createProject env setup =
      ([Event.checkDir setup.id, Event.printMsg "Downloading template...",
        Event.cloneRepo setup.template.gitUrl, Event.printMsg "Filtering...",
        Event.readManifest]
        ++ filterFilesEvents setup env.dateStr entries env.fileRead
        ++ [Event.printMsg "Cleanup..."]
        ++ removeTemplateFilesEvents
        ++ [Event.printMsg "\nYour project has been created. Please consult the README file how to proceed from here."],
       Outcome.exit0) := by
  unfold createProject
  rw [h1, h2, h3]
  simp

/-- Trace and outcome of the whole wizard run on the happy path. -/
theorem runWizard_success (env : WizardEnv) (idx : Int)
    (h0 : env.templates.length ≠ 0) (hi : env.templateIdxInput = some idx)
    (h1 : ¬(idx < 0 ∨ (env.templates.length : Int) ≤ idx))
    (h2 : jsTrim env.nameInput ≠ []) :
    runWizard env =
      ([Event.printMsg "Fetching available project templates...",
        Event.fetchCatalog, Event.clearScreen,
        Event.printMsg "Available project templates: ",
        Event.listTemplates (env.templates.map Template.name),
        Event.promptTemplateIndex, Event.promptName, Event.clearScreen,
        Event.promptSummary, Event.clearScreen]
        ++ (createProject env (wizardSetup env idx)).1,
       (createProject env (wizardSetup env idx)).2) := by
  have h2' : ¬(jsTrim env.nameInput).length = 0 := by
    intro hl
    exact h2 (List.length_eq_zero.mp hl)
  unfold runWizard
  rw [if_neg h0, hi]
  simp only []
  rw [if_neg h1, if_neg h2']
  simp

/-- C6.  Phase ordering of materialization: on the happy path the trace
is exactly directory-check, then fetch, then manifest parse, then the
per-entry substitutions, then cleanup, then the success report; when the
clone fails no manifest read and no substitution occurs; when the
manifest parse fails no substitution occurs. -/
theorem materialization_phase_order :
    (∀ env setup entries, env.dirExists = false → env.cloneOk = true →
        env.manifest = some entries →
        createProject env setup =
          ([Event.checkDir setup.id,
            Event.printMsg "Downloading template...",
            Event.cloneRepo setup.template.gitUrl,
            Event.printMsg "Filtering...",
            Event.readManifest]
            ++ filterFilesEvents setup env.dateStr entries env.fileRead
            ++ [Event.printMsg "Cleanup..."]
            ++ removeTemplateFilesEvents
            ++ [Event.printMsg "\nYour project has been created. Please consult the README file how to proceed from here."],
           Outcome.exit0))
    ∧ (∀ env setup, env.cloneOk = false →
        Event.readManifest ∉ (createProject env setup).1
          ∧ (∀ i, Event.readEntry i ∉ (createProject env setup).1)
          ∧ (∀ i cnt, Event.writeEntry i cnt ∉ (createProject env setup).1))
    ∧ (∀ env setup, env.manifest = none →
        (∀ i, Event.readEntry i ∉ (createProject env setup).1)
          ∧ (∀ i cnt, Event.writeEntry i cnt ∉ (createProject env setup).1)) := by
  refine ⟨createProject_success, ?_, ?_⟩
  · intro env setup hc
    unfold createProject
    rw [hc]
    by_cases hd : env.dirExists = true
    · rw [if_pos hd]
      refine ⟨by simp, fun i => by simp, fun i cnt => by simp⟩
    · rw [if_neg hd]
      simp
  · intro env setup hm
    unfold createProject
    rw [hm]
    by_cases hd : env.dirExists = true
    · rw [if_pos hd]
      refine ⟨fun i => by simp, fun i cnt => by simp⟩
    · rw [if_neg hd]
      by_cases hc : env.cloneOk = true
      · simp [hc]
      · rw [Bool.not_eq_true] at hc
        simp [hc]

theorem materialization_phase_order_witness :
    emptyCatalogEnv.dirExists = false ∧ emptyCatalogEnv.cloneOk = true
      ∧ emptyCatalogEnv.manifest = some []
      ∧ createProject emptyCatalogEnv scenarioSetup =
          ([Event.checkDir scenarioSetup.id,
            Event.printMsg "Downloading template...",
            Event.cloneRepo scenarioSetup.template.gitUrl,
            Event.printMsg "Filtering...",
            Event.readManifest]
            ++ filterFilesEvents scenarioSetup emptyCatalogEnv.dateStr []
                 emptyCatalogEnv.fileRead
            ++ [Event.printMsg "Cleanup..."]
            ++ removeTemplateFilesEvents
            ++ [Event.printMsg "\nYour project has been created. Please consult the README file how to proceed from here."],
           Outcome.exit0) :=
  ⟨rfl, rfl, rfl,
   materialization_phase_order.1 emptyCatalogEnv scenarioSetup [] rfl rfl rfl⟩

/-- C8.  Per-entry isolation of the Substitute phase and best-effort
cleanup: the settled-outcome list always has one entry per manifest
entry; an entry's outcome depends only on its own read and write results;
every entry's read is attempted no matter how the other entries fare; the
three cleanup deletions are all attempted, each outcome depending only on
its own deletion; and neither substitution nor cleanup failures change
the events or the outcome of the rest of the run. -/
theorem substitute_and_cleanup_isolation :
    (∀ entries fileRead wOk,
        (filterFilesSettled entries fileRead wOk).length = entries.length)
    ∧ (∀ entries (r1 w1 r2 w2 : Nat → _) i, r1 i = r2 i → w1 i = w2 i →
        (filterFilesSettled entries r1 w1)[i]?
          = (filterFilesSettled entries r2 w2)[i]?)
    ∧ (∀ setup dateStr entries fileRead i, i < entries.length →
        Event.readEntry i ∈ filterFilesEvents setup dateStr entries fileRead)
    ∧ (∀ a b c, (removeTemplateFilesSettled a b c).length = 3
        ∧ (removeTemplateFilesSettled a b c)[0]? = some (settledOf a)
        ∧ (removeTemplateFilesSettled a b c)[1]? = some (settledOf b)
        ∧ (removeTemplateFilesSettled a b c)[2]? = some (settledOf c))
    ∧ (∀ env setup a b c,
        createProject
            { env with
              removeManifestOk := a
              removeLicenseOk := b
              removeGitDirOk := c } setup
          = createProject env setup)
    ∧ (∀ env setup r wOk,
        (createProject { env with fileRead := r, writeOk := wOk } setup).2
          = (createProject env setup).2)
    ∧ (∀ env setup entries, env.dirExists = false → env.cloneOk = true →
        env.manifest = some entries →
        Event.removeFile "__template.json".toList
            ∈ (createProject env setup).1
          ∧ Event.removeFile "LICENSE".toList ∈ (createProject env setup).1
          ∧ Event.removeFile ".git".toList ∈ (createProject env setup).1
          ∧ (createProject env setup).2 = Outcome.exit0) := by
  refine ⟨?_, ?_, ?_, ?_, ?_, ?_, ?_⟩
  · intro entries fileRead wOk
    simp [filterFilesSettled]
  · intro entries r1 w1 r2 w2 i h1 h2
    simp only [filterFilesSettled, List.getElem?_map, List.enum_eq_enumFrom,
      List.getElem?_enumFrom]
    cases entries[i]? with
    | none => rfl
    | some e => simp [h1, h2]
  · intro setup dateStr entries fileRead i hi
    unfold filterFilesEvents
    rw [List.mem_flatMap]
    refine ⟨(i, entries[i]), ?_, ?_⟩
    · rw [List.mem_enum_iff_getElem?]
      simp [List.getElem?_eq_getElem hi]
    · cases fileRead i <;> simp [filterFileEvents]
  · intro a b c
    exact ⟨rfl, rfl, rfl, rfl⟩
  · intro env setup a b c
    rfl
  · intro env setup r wOk
    unfold createProject
    by_cases hd : env.dirExists = true
    · simp [hd]
    · rw [Bool.not_eq_true] at hd
      by_cases hc : env.cloneOk = true
      · cases hm : env.manifest <;> simp [hd, hc, hm]
      · rw [Bool.not_eq_true] at hc
        simp [hd, hc]
  · intro env setup entries h1 h2 h3
    rw [createProject_success env setup entries h1 h2 h3]
    refine ⟨?_, ?_, ?_, rfl⟩ <;> simp [removeTemplateFilesEvents]

theorem substitute_and_cleanup_isolation_witness :
    (filterFilesSettled [⟨"README.md".toList, []⟩]
          (fun _ => none) (fun _ => true))[0]?
        = (filterFilesSettled [⟨"README.md".toList, []⟩]
          (fun n => if n = 0 then none else some [])
          (fun n => decide (n = 0)))[0]?
    ∧ (0 < 1
        ∧ Event.readEntry 0 ∈ filterFilesEvents scenarioSetup
            "1/5/2024".toList [⟨"README.md".toList, []⟩] (fun _ => none)) :=
  ⟨substitute_and_cleanup_isolation.2.1 [⟨"README.md".toList, []⟩]
     (fun _ => none) (fun _ => true)
     (fun n => if n = 0 then none else some []) (fun n => decide (n = 0)) 0
     rfl (by decide),
   by decide,
   substitute_and_cleanup_isolation.2.2.1 scenarioSetup "1/5/2024".toList
     [⟨"README.md".toList, []⟩] (fun _ => none) 0 (by decide)⟩

/-- C10.  Whenever the clone and the manifest parse succeed, the run
prints the success report and exits with status 0 for every combination
of per-entry read and write results: the settled outcomes of the
Substitute phase are discarded without inspection, so no substitution
failure can change the exit status or suppress the report; in particular
the conclusion also holds when every per-entry read fails. -/
theorem success_despite_substitution_failures :
    ∀ env idx entries, env.templates.length ≠ 0 →
      env.templateIdxInput = some idx →
      ¬(idx < 0 ∨ (env.templates.length : Int) ≤ idx) →
      jsTrim env.nameInput ≠ [] → env.dirExists = false →
      env.cloneOk = true → env.manifest = some entries →
      (runWizard env).2 = Outcome.exit0
        ∧ Event.printMsg "\nYour project has been created. Please consult the README file how to proceed from here."
            ∈ (runWizard env).1
        ∧ (runWizard { env with fileRead := fun _ => none }).2
            = Outcome.exit0 := by
  intro env idx entries h0 hi h1 h2 h3 h4 h5
  refine ⟨?_, ?_, ?_⟩
  · rw [runWizard_success env idx h0 hi h1 h2,
      createProject_success env _ entries h3 h4 h5]
  · rw [runWizard_success env idx h0 hi h1 h2]
    simp only []
    rw [createProject_success env _ entries h3 h4 h5]
    simp
  · rw [runWizard_success { env with fileRead := fun _ => none } idx h0 hi
      h1 h2,
      createProject_success { env with fileRead := fun _ => none } _
        entries h3 h4 h5]

/-- Concrete happy-path environment in which every per-entry read, every
write and every cleanup deletion fails. -/
def happyEnv : WizardEnv :=
  { templates := [⟨"demo".toList, "A demo template".toList,
      "https://example.org/demo".toList,
      "https://example.org/demo.git".toList⟩]
    templateIdxInput := some 0
    nameInput := "My App".toList
    gitNameRes := none
    gitEmailRes := none
    dateStr := "1/5/2024".toList
    dirExists := false
    cloneOk := true
    manifest := some [⟨"README.md".toList, ["webstart-project-id".toList]⟩]
    fileRead := fun _ => none
    writeOk := fun _ => false
    removeManifestOk := false
    removeLicenseOk := false
    removeGitDirOk := false }

theorem success_despite_substitution_failures_witness :
    (runWizard happyEnv).2 = Outcome.exit0
      ∧ Event.printMsg "\nYour project has been created. Please consult the README file how to proceed from here."
          ∈ (runWizard happyEnv).1
      ∧ (runWizard { happyEnv with fileRead := fun _ => none }).2
          = Outcome.exit0 :=
  success_despite_substitution_failures happyEnv 0
    [⟨"README.md".toList, ["webstart-project-id".toList]⟩]
    (by decide) rfl (by decide) (by decide) rfl rfl rfl

/-- Concrete environment whose target directory already exists. -/
def dirConflictEnv : WizardEnv :=
  { happyEnv with dirExists := true }

theorem exit_code_discipline_witness :
    (runWizard dirConflictEnv).2 = Outcome.exit9
      ∧ ∀ url, Event.cloneRepo url ∉ (runWizard dirConflictEnv).1 :=
  exit_code_discipline.2.2.2.1 dirConflictEnv 0 (by decide) rfl (by decide)
    (by decide) rfl

/-! Character-level facts about the basic-latin lowercasing used by the
project-id derivation. -/

theorem charToNat_ofNat_of_valid {n : Nat} (h : n < 55296) :
    (Char.ofNat n).toNat = n := by
  rw [Char.ofNat, dif_pos (Or.inl h)]
  rfl

theorem toLower_toNat (c : Char) :
    (Char.toLower c).toNat
      = if 65 ≤ c.toNat ∧ c.toNat ≤ 90 then c.toNat + 32 else c.toNat := by
  simp only [Char.toLower]
  by_cases h : 65 ≤ c.toNat ∧ c.toNat ≤ 90
  · rw [if_pos h, if_pos ⟨h.1, h.2⟩]
    exact charToNat_ofNat_of_valid (by omega)
  · rw [if_neg h, if_neg fun hc => h ⟨hc.1, hc.2⟩]

theorem toLower_fixed_of_not_upper {c : Char}
    (h : ¬(65 ≤ c.toNat ∧ c.toNat ≤ 90)) : Char.toLower c = c := by
  simp only [Char.toLower]
  exact if_neg fun hc => h ⟨hc.1, hc.2⟩

theorem toLower_toLower (c : Char) :
    Char.toLower (Char.toLower c) = Char.toLower c := by
  by_cases h : 65 ≤ c.toNat ∧ c.toNat ≤ 90
  · apply toLower_fixed_of_not_upper
    rw [toLower_toNat, if_pos h]
    omega
  · rw [toLower_fixed_of_not_upper h]
    exact toLower_fixed_of_not_upper h

theorem jsIsSpace_toLower (c : Char) :
    jsIsSpace (Char.toLower c) = jsIsSpace c := by
  by_cases h : 65 ≤ c.toNat ∧ c.toNat ≤ 90
  · have e1 : jsIsSpace (Char.toLower c) = false := by
      simp only [jsIsSpace, toLower_toNat, if_pos h, List.mem_cons,
        List.not_mem_nil, or_false, decide_eq_false_iff_not]
      omega
    have e2 : jsIsSpace c = false := by
      simp only [jsIsSpace, List.mem_cons, List.not_mem_nil, or_false,
        decide_eq_false_iff_not]
      omega
    rw [e1, e2]
  · rw [toLower_fixed_of_not_upper h]

/-! List-level helper lemmas. -/

theorem length_dropWhile_le (p : Char → Bool) :
    ∀ l : List Char, (l.dropWhile p).length ≤ l.length := by
  intro l
  induction l with
  | nil => simp
  | cons a rest ih =>
    rw [List.dropWhile_cons]
    by_cases hp : p a = true
    · rw [if_pos hp]
      exact Nat.le_trans ih (Nat.le_succ _)
    · rw [if_neg hp]

theorem mem_jsJoin {c : Char} {sep : List Char} :
    ∀ {ts : List (List Char)}, c ∈ jsJoin sep ts →
      c ∈ sep ∨ ∃ t ∈ ts, c ∈ t
  | [], h => absurd h (List.not_mem_nil c)
  | [t], h => Or.inr ⟨t, List.mem_singleton.mpr rfl, h⟩
  | t :: t2 :: ts, h => by
    have hunf : jsJoin sep (t :: t2 :: ts)
        = t ++ sep ++ jsJoin sep (t2 :: ts) := rfl
    rw [hunf] at h
    rcases List.mem_append.mp h with h1 | h1
    · rcases List.mem_append.mp h1 with h2 | h2
      · exact Or.inr ⟨t, List.mem_cons_self t _, h2⟩
      · exact Or.inl h2
    · rcases mem_jsJoin h1 with h2 | ⟨u, hu, hcu⟩
      · exact Or.inl h2
      · exact Or.inr ⟨u, List.mem_cons_of_mem t hu, hcu⟩

theorem dropWhile_eq_self_of (p : Char → Bool) {l : List Char}
    (h : ∀ c ∈ l, p c = false) : l.dropWhile p = l := by
  cases l with
  | nil => rfl
  | cons a rest =>
    rw [List.dropWhile_cons, if_neg]
    rw [h a (List.mem_cons_self a rest)]
    exact Bool.false_ne_true

theorem jsTrim_eq_self_of {l : List Char}
    (h : ∀ c ∈ l, jsIsSpace c = false) : jsTrim l = l := by
  unfold jsTrim
  rw [dropWhile_eq_self_of _ h, dropWhile_eq_self_of _ ?_,
    List.reverse_reverse]
  intro c hc
  exact h c (List.mem_reverse.mp hc)

theorem jsSplitWsGo_all_no_space :
    ∀ fuel (l cur : List Char), l.length ≤ fuel →
      (∀ c ∈ cur, jsIsSpace c = false) →
      ∀ t ∈ jsSplitWsGo cur fuel l, ∀ c ∈ t, jsIsSpace c = false := by
  intro fuel
  induction fuel with
  | zero =>
    intro l cur hlen hcur t ht c hc
    have hl : l = [] := List.length_eq_zero.mp (Nat.le_zero.mp hlen)
    subst hl
    have : t = cur.reverse := List.mem_singleton.mp ht
    subst this
    exact hcur c (List.mem_reverse.mp hc)
  | succ fuel ih =>
    intro l cur hlen hcur t ht c hc
    cases l with
    | nil =>
      have : t = cur.reverse := List.mem_singleton.mp ht
      subst this
      exact hcur c (List.mem_reverse.mp hc)
    | cons a rest =>
      have hunf : jsSplitWsGo cur (fuel + 1) (a :: rest)
          = if jsIsSpace a
            then cur.reverse
              :: jsSplitWsGo [] fuel (rest.dropWhile jsIsSpace)
            else jsSplitWsGo (a :: cur) fuel rest := rfl
      rw [hunf] at ht
      by_cases hsp : jsIsSpace a = true
      · rw [if_pos hsp] at ht
        rcases List.mem_cons.mp ht with h1 | h1
        · subst h1
          exact hcur c (List.mem_reverse.mp hc)
        · exact ih (rest.dropWhile jsIsSpace) []
            (Nat.le_trans (length_dropWhile_le _ rest)
              (Nat.le_of_succ_le_succ hlen))
            (by intro x hx; exact absurd hx (List.not_mem_nil x))
            t h1 c hc
      · rw [if_neg hsp] at ht
        refine ih rest (a :: cur) (Nat.le_of_succ_le_succ hlen) ?_ t ht c hc
        intro x hx
        rcases List.mem_cons.mp hx with h1 | h1
        · subst h1
          exact Bool.not_eq_true _ ▸ hsp
        · exact hcur x h1

theorem jsSplitWsGo_single :
    ∀ fuel (l cur : List Char), l.length ≤ fuel →
      (∀ c ∈ l, jsIsSpace c = false) →
      jsSplitWsGo cur fuel l = [cur.reverse ++ l] := by
  intro fuel
  induction fuel with
  | zero =>
    intro l cur hlen _
    have hl : l = [] := List.length_eq_zero.mp (Nat.le_zero.mp hlen)
    subst hl
    rw [List.append_nil]
    rfl
  | succ fuel ih =>
    intro l cur hlen hl
    cases l with
    | nil =>
      rw [List.append_nil]
      rfl
    | cons a rest =>
      have hunf : jsSplitWsGo cur (fuel + 1) (a :: rest)
          = if jsIsSpace a
            then cur.reverse
              :: jsSplitWsGo [] fuel (rest.dropWhile jsIsSpace)
            else jsSplitWsGo (a :: cur) fuel rest := rfl
      rw [hunf, if_neg (by rw [hl a (List.mem_cons_self a rest)]; exact
        Bool.false_ne_true)]
      rw [ih rest (a :: cur) (Nat.le_of_succ_le_succ hlen)
        (fun x hx => hl x (List.mem_cons_of_mem a hx))]
      simp

/-- Every character of a derived project id is neither whitespace nor an
uppercase basic-latin letter (it is fixed by lowercasing). -/
theorem convert_chars (s : List Char) :
    ∀ c ∈ convertStringToProjectId s,
      jsIsSpace c = false ∧ Char.toLower c = c := by
  intro c hc
  unfold convertStringToProjectId at hc
  rcases mem_jsJoin hc with hsep | ⟨t, ht, hct⟩
  · have hc' : c = '-' := List.mem_singleton.mp hsep
    subst hc'
    exact ⟨by decide, by decide⟩
  · rcases List.mem_map.mp ht with ⟨t0, ht0, rfl⟩
    rcases List.mem_map.mp hct with ⟨c0, hc0, rfl⟩
    have hs : jsIsSpace c0 = false := by
      refine jsSplitWsGo_all_no_space (jsTrim s).length (jsTrim s) []
        (Nat.le_refl _) ?_ t0 ht0 c0 hc0
      intro x hx
      exact absurd hx (List.not_mem_nil x)
    refine ⟨?_, toLower_toLower c0⟩
    rw [jsIsSpace_toLower]
    exact hs

/-- C9.  Deriving a project id is idempotent: the output contains no
whitespace and no uppercase letter, so trimming, splitting and
lowercasing it again is the identity. -/
theorem projectId_derivation_idempotent :
    ∀ s : List Char,
      convertStringToProjectId (convertStringToProjectId s)
          = convertStringToProjectId s
        ∧ ∀ c ∈ convertStringToProjectId s,
            jsIsSpace c = false ∧ Char.toLower c = c := by
  intro s
  refine ⟨?_, convert_chars s⟩
  have hns : ∀ c ∈ convertStringToProjectId s, jsIsSpace c = false :=
    fun c hc => (convert_chars s c hc).1
  have hlf : ∀ c ∈ convertStringToProjectId s, Char.toLower c = c :=
    fun c hc => (convert_chars s c hc).2
  have h1 : jsTrim (convertStringToProjectId s) = convertStringToProjectId s :=
    jsTrim_eq_self_of hns
  have h2 : jsSplitWs (convertStringToProjectId s)
      = [convertStringToProjectId s] := by
    unfold jsSplitWs
    have := jsSplitWsGo_single (convertStringToProjectId s).length
      (convertStringToProjectId s) [] (Nat.le_refl _) hns
    rw [this]
    rw [List.reverse_nil, List.nil_append]
  have h3 : List.map Char.toLower (convertStringToProjectId s)
      = convertStringToProjectId s :=
    (List.map_congr_left hlf).trans (List.map_id _)
  calc convertStringToProjectId (convertStringToProjectId s)
      = jsJoin ['-']
          ((jsSplitWs (jsTrim (convertStringToProjectId s))).map
            (List.map Char.toLower)) := rfl
    _ = jsJoin ['-'] [List.map Char.toLower (convertStringToProjectId s)] := by
          rw [h1, h2]
          rfl
    _ = jsJoin ['-'] [convertStringToProjectId s] := by rw [h3]
    _ = convertStringToProjectId s := rfl

theorem projectId_derivation_idempotent_witness :
    convertStringToProjectId
        (convertStringToProjectId "  My Cool App  ".toList)
      = convertStringToProjectId "  My Cool App  ".toList
    ∧ (jsIsSpace 'm' = false ∧ Char.toLower 'm' = 'm') :=
  ⟨(projectId_derivation_idempotent "  My Cool App  ".toList).1,
   (projectId_derivation_idempotent "  My Cool App  ".toList).2 'm'
     (by decide)⟩

/-! Relating the whitespace scanner to a declarative split: the nonempty
pieces that `List.splitOnP` leaves between the whitespace characters. -/

/-- Inserts a pending accumulator into the first token of a token list. -/
def consInto (x : List Char) : List (List Char) → List (List Char)
  | [] => [x]
  | t :: ts => (x ++ t) :: ts

/-- The last character, if any, is not whitespace. -/
def noTrailSpace (l : List Char) : Prop :=
  ∀ c, l.getLast? = some c → jsIsSpace c = false

theorem head?_dropWhile_false (p : Char → Bool) (l : List Char) :
    ∀ c, (l.dropWhile p).head? = some c → p c = false := by
  intro c hc
  have h := List.head?_dropWhile_not p l
  rw [hc] at h
  exact h

theorem getLast?_dropWhile (p : Char → Bool) :
    ∀ l : List Char, l.dropWhile p ≠ [] →
      (l.dropWhile p).getLast? = l.getLast? := by
  intro l
  induction l with
  | nil => intro h; exact absurd rfl h
  | cons a rest ih =>
    rw [List.dropWhile_cons]
    by_cases hp : p a = true
    · rw [if_pos hp]
      intro hne
      rw [ih hne]
      have hrest : rest ≠ [] := by
        intro h0
        rw [h0] at hne
        exact hne rfl
      cases rest with
      | nil => exact absurd rfl hrest
      | cons b bs => rw [List.getLast?_cons_cons]
    · rw [if_neg hp]
      intro _
      rfl

theorem noTrailSpace_jsTrim (s : List Char) : noTrailSpace (jsTrim s) := by
  intro c hc
  unfold jsTrim at hc
  rw [List.getLast?_reverse] at hc
  exact head?_dropWhile_false _ _ c hc

theorem headNotSpace_jsTrim (s : List Char) :
    ∀ c, (jsTrim s).head? = some c → jsIsSpace c = false := by
  intro c hc
  unfold jsTrim at hc
  rw [List.head?_reverse] at hc
  by_cases hne : ((s.dropWhile jsIsSpace).reverse.dropWhile jsIsSpace) = []
  · rw [hne] at hc
    cases hc
  · rw [getLast?_dropWhile _ _ hne, List.getLast?_reverse] at hc
    exact head?_dropWhile_false _ _ c hc

theorem filter_splitOnP_dropWhile (p : Char → Bool) :
    ∀ l : List Char,
      (((l.dropWhile p).splitOnP p).filter (· ≠ []))
        = ((l.splitOnP p).filter (· ≠ [])) := by
  intro l
  induction l with
  | nil => rfl
  | cons a rest ih =>
    rw [List.dropWhile_cons]
    by_cases hp : p a = true
    · rw [if_pos hp, List.splitOnP_cons, if_pos hp, ih, List.filter_cons]
      simp
    · rw [if_neg hp]

theorem filter_splitOnP_head_cons (d : Char) (ds : List Char)
    (hd : jsIsSpace d = false) :
    ∃ t1 ts1, (((d :: ds).splitOnP jsIsSpace).filter (· ≠ []))
      = (d :: t1) :: ts1 := by
  rw [List.splitOnP_cons, if_neg (by rw [hd]; exact Bool.false_ne_true)]
  cases hsp : ds.splitOnP jsIsSpace with
  | nil => exact absurd hsp (List.splitOnP_ne_nil _ _)
  | cons t0 ts0 =>
    refine ⟨t0, ts0.filter (· ≠ []), ?_⟩
    rw [List.modifyHead_cons]
    simp [List.filter_cons]

theorem jsSplitWsGo_nil (cur : List Char) (fuel : Nat) :
    jsSplitWsGo cur fuel [] = [cur.reverse] := by
  cases fuel <;> rfl

/-- Core refinement of the whitespace scanner: on inputs without a
trailing whitespace character the scanner produces exactly the pending
accumulator merged into the nonempty pieces of the declarative split.
The two conjuncts distinguish a non-whitespace (or absent) head from a
whitespace head, which decides whether the accumulator is closed off
first. -/
theorem jsSplitWsGo_split :
    ∀ fuel (l cur : List Char), l.length ≤ fuel → noTrailSpace l →
      ((∀ c, l.head? = some c → jsIsSpace c = false) →
        jsSplitWsGo cur fuel l
          = consInto cur.reverse ((l.splitOnP jsIsSpace).filter (· ≠ [])))
      ∧ (∀ c, l.head? = some c → jsIsSpace c = true →
          jsSplitWsGo cur fuel l
            = cur.reverse :: ((l.splitOnP jsIsSpace).filter (· ≠ []))) := by
  intro fuel
  induction fuel with
  | zero =>
    intro l cur hlen hnt
    have hl : l = [] := List.length_eq_zero.mp (Nat.le_zero.mp hlen)
    subst hl
    constructor
    · intro _
      rfl
    · intro c hc
      cases hc
  | succ fuel ih =>
    intro l cur hlen hnt
    cases l with
    | nil =>
      constructor
      · intro _
        rfl
      · intro c hc
        cases hc
    | cons a rest =>
      have hunf : jsSplitWsGo cur (fuel + 1) (a :: rest)
          = if jsIsSpace a
            then cur.reverse
              :: jsSplitWsGo [] fuel (rest.dropWhile jsIsSpace)
            else jsSplitWsGo (a :: cur) fuel rest := rfl
      by_cases hsp : jsIsSpace a = true
      · -- whitespace head: the accumulator is emitted, the run skipped
        have key : jsSplitWsGo cur (fuel + 1) (a :: rest)
            = cur.reverse
              :: (((a :: rest).splitOnP jsIsSpace).filter (· ≠ [])) := by
          rw [hunf, if_pos hsp]
          have hlen2 : (rest.dropWhile jsIsSpace).length ≤ fuel :=
            Nat.le_trans (length_dropWhile_le _ rest)
              (Nat.le_of_succ_le_succ hlen)
          by_cases hz : rest.dropWhile jsIsSpace = []
          · -- then the whole input ends in whitespace: impossible
            exfalso
            have hall : ∀ x ∈ rest, jsIsSpace x = true :=
              List.dropWhile_eq_nil_iff.mp hz
            cases rest with
            | nil =>
              have hx := hnt a rfl
              rw [hsp] at hx
              cases hx
            | cons b bs =>
              have hlast := List.getLast?_eq_getLast (b :: bs) (by simp)
              have hfalse :
                  jsIsSpace ((b :: bs).getLast (by simp)) = false := by
                apply hnt
                rw [List.getLast?_cons_cons]
                exact hlast
              rw [hall _ (List.getLast_mem (by simp))] at hfalse
              cases hfalse
          · -- nonempty remainder after the run: recurse, accumulator empty
            have hrest : rest ≠ [] := by
              intro h0
              rw [h0] at hz
              exact hz rfl
            have hnt2 : noTrailSpace (rest.dropWhile jsIsSpace) := by
              intro c hc
              apply hnt
              rw [getLast?_dropWhile jsIsSpace rest hz] at hc
              cases rest with
              | nil => exact absurd rfl hrest
              | cons b bs =>
                rw [List.getLast?_cons_cons]
                exact hc
            obtain ⟨d, ds, hdd⟩ :
                ∃ d ds, rest.dropWhile jsIsSpace = d :: ds := by
              cases hc2 : rest.dropWhile jsIsSpace with
              | nil => exact absurd hc2 hz
              | cons d ds => exact ⟨d, ds, rfl⟩
            have hdns : jsIsSpace d = false := by
              apply head?_dropWhile_false jsIsSpace rest
              rw [hdd]
              rfl
            have hhead2 : ∀ c, (rest.dropWhile jsIsSpace).head? = some c →
                jsIsSpace c = false := by
              intro c hc
              rw [hdd] at hc
              injection hc with hc
              subst hc
              exact hdns
            rw [(ih (rest.dropWhile jsIsSpace) [] hlen2 hnt2).1 hhead2]
            obtain ⟨t1, ts1, hft⟩ := filter_splitOnP_head_cons d ds hdns
            have hfilter :
                ((rest.splitOnP jsIsSpace).filter (· ≠ []))
                  = (d :: t1) :: ts1 := by
              rw [← filter_splitOnP_dropWhile jsIsSpace rest, hdd, hft]
            rw [List.splitOnP_cons, if_pos hsp, List.filter_cons]
            rw [hdd, hft, hfilter]
            simp [consInto]
        constructor
        · intro hhead
          have hx := hhead a rfl
          rw [hsp] at hx
          cases hx
        · intro c hc hspc
          exact key
      · -- non-whitespace head: the character joins the accumulator
        have hspf : jsIsSpace a = false := by
          cases hx : jsIsSpace a with
          | false => rfl
          | true => exact absurd hx hsp
        have key : jsSplitWsGo cur (fuel + 1) (a :: rest)
            = consInto cur.reverse
                (((a :: rest).splitOnP jsIsSpace).filter (· ≠ [])) := by
          rw [hunf, if_neg hsp]
          rw [List.splitOnP_cons, if_neg hsp]
          cases rest with
          | nil =>
            rw [List.splitOnP_nil, List.modifyHead_cons, jsSplitWsGo_nil]
            simp [consInto, List.reverse_cons, List.filter_cons]
          | cons b bs =>
            have hntr : noTrailSpace (b :: bs) := by
              intro c hc
              apply hnt
              rw [List.getLast?_cons_cons]
              exact hc
            have hlenr : (b :: bs).length ≤ fuel :=
              Nat.le_of_succ_le_succ hlen
            by_cases hb : jsIsSpace b = true
            · rw [(ih (b :: bs) (a :: cur) hlenr hntr).2 b rfl hb]
              rw [List.splitOnP_cons, if_pos hb]
              rw [List.modifyHead_cons]
              rw [List.filter_cons, List.filter_cons]
              simp [consInto, List.reverse_cons]
            · have hbf : jsIsSpace b = false := by
                cases hx : jsIsSpace b with
                | false => rfl
                | true => exact absurd hx hb
              have hheadb : ∀ c, (b :: bs).head? = some c →
                  jsIsSpace c = false := by
                intro c hc
                rw [List.head?_cons] at hc
                injection hc with hc
                subst hc
                exact hbf
              obtain ⟨u, us, hu⟩ :
                  ∃ u us, bs.splitOnP jsIsSpace = u :: us := by
                cases hx : bs.splitOnP jsIsSpace with
                | nil => exact absurd hx (List.splitOnP_ne_nil _ _)
                | cons u us => exact ⟨u, us, rfl⟩
              rw [(ih (b :: bs) (a :: cur) hlenr hntr).1 hheadb]
              rw [List.splitOnP_cons, if_neg hb, hu]
              rw [List.modifyHead_cons, List.modifyHead_cons]
              rw [List.filter_cons, List.filter_cons]
              simp [consInto, List.reverse_cons]
        constructor
        · intro _
          exact key
        · intro c hc hspc
          rw [List.head?_cons] at hc
          injection hc with hc
          subst hc
          rw [hspf] at hspc
          cases hspc

/-- On a trimmed non-empty input the scanner agrees with the declarative
split into nonempty pieces. -/
theorem jsSplitWs_jsTrim (s : List Char) (h : jsTrim s ≠ []) :
    jsSplitWs (jsTrim s)
      = ((jsTrim s).splitOnP jsIsSpace).filter (· ≠ []) := by
  obtain ⟨d, ds, hd⟩ : ∃ d ds, jsTrim s = d :: ds := by
    cases hx : jsTrim s with
    | nil => exact absurd hx h
    | cons d ds => exact ⟨d, ds, rfl⟩
  have hdns : jsIsSpace d = false :=
    headNotSpace_jsTrim s d (by rw [hd]; rfl)
  have hmain := (jsSplitWsGo_split (jsTrim s).length (jsTrim s) []
    (Nat.le_refl _) (noTrailSpace_jsTrim s)).1 (headNotSpace_jsTrim s)
  unfold jsSplitWs
  rw [hmain]
  obtain ⟨t1, ts1, hft⟩ := filter_splitOnP_head_cons d ds hdns
  rw [hd, hft]
  simp [consInto]

/-- Project-id derivation as worded in the specification: trim the raw
name, split it into the maximal whitespace-free pieces (the tokens left
between the whitespace runs), lowercase every token, rejoin with
hyphens. -/
def deriveProjectIdSpec (rawName : List Char) : List Char :=
  jsJoin ['-']
    ((((jsTrim rawName).splitOnP jsIsSpace).filter (· ≠ [])).map
      (List.map Char.toLower))

/-- C2.  For every raw name with non-empty trimmed form, the embedded
`convertStringToProjectId` computes exactly the derivation worded in the
specification, and the scenario raw name (two-space-padded My Cool App)
yields my-cool-app under both definitions. -/
theorem projectId_matches_spec_derivation :
    (∀ s, jsTrim s ≠ [] →
        convertStringToProjectId s = deriveProjectIdSpec s)
      ∧ convertStringToProjectId "  My Cool App  ".toList
          = "my-cool-app".toList
      ∧ deriveProjectIdSpec "  My Cool App  ".toList
          = "my-cool-app".toList := by
  refine ⟨?_, by decide, by decide⟩
  intro s h
  unfold convertStringToProjectId deriveProjectIdSpec
  rw [jsSplitWs_jsTrim s h]

theorem projectId_matches_spec_derivation_witness :
    jsTrim "  My Cool App  ".toList ≠ []
      ∧ convertStringToProjectId "  My Cool App  ".toList
          = deriveProjectIdSpec "  My Cool App  ".toList :=
  ⟨by decide,
   projectId_matches_spec_derivation.1 "  My Cool App  ".toList (by decide)⟩

/-- C3.  On every non-empty raw name the derivation is deterministic (it
is a pure function of the raw name) and its output is a hyphen-join of
non-empty tokens containing neither whitespace nor uppercase letters; in
particular the output has no leading, trailing or internal whitespace. -/
theorem projectId_shape :
    ∀ s : List Char, s ≠ [] →
      (∀ t, t = s →
          convertStringToProjectId t = convertStringToProjectId s)
        ∧ (∃ ts, convertStringToProjectId s = jsJoin ['-'] ts
            ∧ (∀ t ∈ ts, t ≠ [])
            ∧ (∀ t ∈ ts, ∀ c ∈ t,
                jsIsSpace c = false ∧ Char.toLower c = c))
        ∧ (∀ c ∈ convertStringToProjectId s, jsIsSpace c = false) := by
  intro s hs
  refine ⟨fun t ht => by rw [ht], ?_,
    fun c hc => (convert_chars s c hc).1⟩
  by_cases h : jsTrim s = []
  · refine ⟨[], ?_, ?_, ?_⟩
    · unfold convertStringToProjectId
      rw [h]
      rfl
    · intro t ht
      exact absurd ht (List.not_mem_nil t)
    · intro t ht
      exact absurd ht (List.not_mem_nil t)
  · refine ⟨(((jsTrim s).splitOnP jsIsSpace).filter (· ≠ [])).map
      (List.map Char.toLower), ?_, ?_, ?_⟩
    · unfold convertStringToProjectId
      rw [jsSplitWs_jsTrim s h]
    · intro t ht
      rcases List.mem_map.mp ht with ⟨t0, ht0, rfl⟩
      have ht0ne : t0 ≠ [] :=
        of_decide_eq_true (List.mem_filter.mp ht0).2
      intro h0
      exact ht0ne (List.map_eq_nil_iff.mp h0)
    · intro t ht c hc
      rw [← jsSplitWs_jsTrim s h] at ht
      rcases List.mem_map.mp ht with ⟨t0, ht0, rfl⟩
      rcases List.mem_map.mp hc with ⟨c0, hc0, rfl⟩
      have hs0 : jsIsSpace c0 = false := by
        refine jsSplitWsGo_all_no_space (jsTrim s).length (jsTrim s) []
          (Nat.le_refl _) ?_ t0 ht0 c0 hc0
        intro x hx
        exact absurd hx (List.not_mem_nil x)
      constructor
      · rw [jsIsSpace_toLower]
        exact hs0
      · exact toLower_toLower c0

theorem projectId_shape_witness :
    "  My Cool App  ".toList ≠ []
      ∧ ∀ c ∈ convertStringToProjectId "  My Cool App  ".toList,
          jsIsSpace c = false :=
  ⟨by decide,
   (projectId_shape "  My Cool App  ".toList (by decide)).2.2⟩
